import Mathlib

/-!
Verification development for the redtime command-line time-tracking client
(`redtime.py`).  The Python source is shallowly embedded: each definition
below models one function or code path of the source, keeping the source
structure (truthiness tests, dictionary lookups, exception paths) explicit.
External collaborators (the Redmine HTTP API, the fuzzywuzzy scorer, the
iteration order of a CPython `set`) are modelled as explicit parameters.
-/

namespace Redtime

/-- A remote resource (project, issue, activity or time entry): a stable
integer id plus a display name (`name` for projects/activities, `subject`
for issues; a single field models both). -/
structure Resource where
  id : Int
  name : String
deriving DecidableEq, Repr

/-- Lower-casing of a Python string via `str.lower` (ASCII case folding,
matching the source usage on activity and project names). -/
def pyLower (s : String) : String := ⟨s.data.map Char.toLower⟩

/-- The characters after the last colon of a string: this is what the
source computes with `value.split(':')[-1]`.  `acc` holds the (reversed)
characters seen since the last colon. -/
def afterLastColon : List Char → List Char → List Char
  | [], acc => acc.reverse
  | c :: cs, acc => if c = ':' then afterLastColon cs [] else afterLastColon cs (c :: acc)

/-- Value of a list of decimal digit characters, most significant first. -/
def digitsToNat (cs : List Char) : Nat :=
  cs.foldl (fun n c => n * 10 + (c.toNat - '0'.toNat)) 0

/-- The Python `int(...)` constructor applied to a string, on the forms the
claims quantify over: an optional sign followed by decimal digits.  (Python
additionally strips surrounding whitespace and accepts underscore digit
separators; those forms appear in no claim and are not modelled, so this
parser is a faithful restriction of `int`.)  Returns `none` where `int`
raises `ValueError`. -/
def pyIntL : List Char → Option Int
  | [] => none
  | c :: cs =>
    if c = '-' then
      if !cs.isEmpty && cs.all Char.isDigit then some (-(digitsToNat cs : Int)) else none
    else if c = '+' then
      if !cs.isEmpty && cs.all Char.isDigit then some ((digitsToNat cs : Int)) else none
    else if (c :: cs).all Char.isDigit then some ((digitsToNat (c :: cs) : Int)) else none

/-- A numeric reference token: parses entirely as a (nonnegative) integer,
i.e. it is a nonempty string of decimal digits. -/
def isNumericToken (s : String) : Bool := !s.data.isEmpty && s.data.all Char.isDigit

/-- Python truthiness of an optional string argument: `None` and the empty
string are falsy. -/
def truthyOS (o : Option String) : Bool := decide (o.getD "" ≠ "")

/-- Python truthiness of an optional integer argument: `None` and `0` are
falsy. -/
def truthyOI (o : Option Int) : Bool := decide (o.getD 0 ≠ 0)

/-- Python `str.startswith` on character lists. -/
def startsWithL : List Char → List Char → Bool
  | _, [] => true
  | [], _ :: _ => false
  | c :: cs, p :: ps => c = p && startsWithL cs ps

/-! ### Exact-mode id resolution

`ProjectType.convert`, `IssueType.convert` and `TimeEntryType.convert` share
one shape: `value = int(value.split(':')[-1])`, then
`return get_<kind>(value) if value else None`, with `ValueError` reported as
"id is not a number" and `ResourceNotFoundError` as "not found".  The remote
single-id fetch (`redmine.<kind>.get`) is modelled by a lookup function
`byId`. -/

/-- Outcome of `ProjectType.convert` / `IssueType.convert` /
`TimeEntryType.convert`. -/
inductive Resolved where
  | okSome : Resource → Resolved
  | okNone : Resolved
  | failNotFound : Resolved
  | failNotANumber : Resolved
deriving DecidableEq, Repr

/-- Lookup of a resource by id in a bulk collection; models the remote
single-id fetch when the remote store is given as a list. -/
def get_by_id (env : List Resource) (i : Int) : Option Resource :=
  env.find? (fun r => decide (r.id = i))

/-- `convert` of the id-based click parameter types (project, issue, time
entry): take the text after the last colon, parse it as an integer, and if
the integer is truthy fetch the resource by id (failing with not-found when
the remote lookup fails); the integer `0` short-circuits to `None`. -/
def convert_id_type (byId : Int → Option Resource) (value : String) : Resolved :=
  match pyIntL (afterLastColon value.data []) with
  | none => .failNotANumber
  | some i =>
    if i = 0 then .okNone
    else
      match byId i with
      | some r => .okSome r
      | none => .failNotFound

/-! ### Activities: `_with_activities` and `ActivityType.convert` -/

/-- Insertion into a score-descending list, before the first strictly
smaller score, so that equal scores keep their original relative order
(matching the stable selection of `fuzzywuzzy.process.extract`). -/
def fwInsert (x : Resource × Nat) : List (Resource × Nat) → List (Resource × Nat)
  | [] => [x]
  | y :: ys => if x.2 ≥ y.2 then x :: y :: ys else y :: fwInsert x ys

/-- Stable sort by descending score. -/
def fwSortDesc : List (Resource × Nat) → List (Resource × Nat)
  | [] => []
  | x :: xs => fwInsert x (fwSortDesc xs)

/-- `fuzzywuzzy.process.extract(query, xs)`: score every candidate with the
(externally supplied) string-similarity scorer, order by descending score,
and keep the default limit of 5 results. -/
def fwExtract (score : String → Resource → Nat) (q : String) (xs : List Resource) :
    List (Resource × Nat) :=
  (fwSortDesc (xs.map (fun a => (a, score q a)))).take 5

/-- Python dict lookup in an insertion-ordered association list with string
keys: the latest insertion for a key wins. -/
def dictGetStr (pairs : List (String × Resource)) (k : String) : Option Resource :=
  (pairs.reverse.find? (fun p => decide (p.1 = k))).map (fun p => p.2)

/-- Python dict lookup with integer keys, latest insertion wins. -/
def dictGetInt (pairs : List (Int × Resource)) (k : Int) : Option Resource :=
  (pairs.reverse.find? (fun p => decide (p.1 = k))).map (fun p => p.2)

/-- The `indexed['name']` dict built by `_with_activities`: keys are the
lower-cased activity names, in collection order. -/
def nameIndex (activities : List Resource) : List (String × Resource) :=
  activities.map (fun a => (pyLower a.name, a))

/-- The `indexed['id']` dict built by `_with_activities`. -/
def idIndex (activities : List Resource) : List (Int × Resource) :=
  activities.map (fun a => (a.id, a))

/-- Result of `_with_activities`: one activity (name or id branch), a list
of activities (fuzzy branch or the no-argument fallthrough returning the
whole collection), or a `KeyError` from a failed dict lookup. -/
inductive WAResult where
  | single : Resource → WAResult
  | list : List Resource → WAResult
  | keyError : WAResult
deriving DecidableEq, Repr

/-- `_with_activities(activities, name, id, fuzzy, threshold)`: builds the
name and id indexes; a truthy `name` does an exact dict lookup, else a
truthy `id` does an id lookup, else a truthy `fuzzy` runs the fuzzy scorer
and keeps scores at or above `threshold`, else the whole collection is
returned. -/
def with_activities (score : String → Resource → Nat) (activities : List Resource)
    (name : Option String) (id : Option Int) (fuzzy : Option String) (threshold : Nat) :
    WAResult :=
  if truthyOS name then
    match dictGetStr (nameIndex activities) (name.getD "") with
    | some a => .single a
    | none => .keyError
  else if truthyOI id then
    match dictGetInt (idIndex activities) (id.getD 0) with
    | some a => .single a
    | none => .keyError
  else if truthyOS fuzzy then
    .list (((fwExtract score (fuzzy.getD "") activities).filter
      (fun p => decide (threshold ≤ p.2))).map (fun p => p.1))
  else .list activities

/-- Outcome of `ActivityType.convert`: a single resolved activity, the whole
collection (the falsy-argument fallthrough of `_with_activities`), or the
"Activity not found" failure raised on `KeyError`. -/
inductive ActResolved where
  | one : Resource → ActResolved
  | many : List Resource → ActResolved
  | notFound : ActResolved
deriving DecidableEq, Repr

/-- Mapping of a `_with_activities` result through the `try/except KeyError`
of `ActivityType.convert`. -/
def actOfWA : WAResult → ActResolved
  | .single a => .one a
  | .list l => .many l
  | .keyError => .notFound

/-- `ActivityType.convert` on an already-selected activity collection
(`ctx` scoping chooses the collection; resolution itself is the same): try
`int(value.split(':')[-1])` and resolve by id; on `ValueError` resolve by
the lower-cased name.  A `KeyError` from either lookup becomes the
"Activity not found" failure.  The threshold argument is never passed by
`convert`, so the default 80 is used. -/
def activity_convert (score : String → Resource → Nat) (activities : List Resource)
    (value : String) : ActResolved :=
  match pyIntL (afterLastColon value.data []) with
  | some i => actOfWA (with_activities score activities none (some i) none 80)
  | none => actOfWA (with_activities score activities (some (pyLower value)) none none 80)

/-! ### Enumeration: `_id_match`, `_projects` and candidate formatting -/

/-- Insertion into an id-ascending list, before the first strictly larger
id, so equal ids keep their original order (Python `sorted` is stable). -/
def insertById (x : Resource) : List Resource → List Resource
  | [] => [x]
  | y :: ys => if x.id ≤ y.id then x :: y :: ys else y :: insertById x ys

/-- Stable ascending sort by id, modelling `sorted(..., key=lambda res: res.id)`. -/
def sortById : List Resource → List Resource
  | [] => []
  | x :: xs => insertById x (sortById xs)

/-- `_id_match(resource_list, num_prefix)`: `None` gives `[]`; otherwise the
numeric prefix is normalised through `str(int(num_prefix))` (any failure is
swallowed by the bare `except`, giving `[]`) and the resources whose decimal
id starts with it are returned sorted ascending by id. -/
def _id_match (resource_list : List Resource) (numPfx : Option String) : List Resource :=
  match numPfx with
  | none => []
  | some s =>
    match pyIntL s.data with
    | none => []
    | some n =>
      sortById (resource_list.filter
        (fun r => startsWithL (toString r.id).data (toString n).data))

/-- `_projects(name, threshold, projects)` on an already-fetched project
list: a truthy name filters by fuzzy score at or above the threshold,
otherwise the list is returned unfiltered. -/
def _projects_f (score : String → Resource → Nat) (threshold : Nat)
    (name : Option String) (projects : List Resource) : List Resource :=
  if truthyOS name then
    ((fwExtract score (name.getD "") projects).filter
      (fun p => decide (threshold ≤ p.2))).map (fun p => p.1)
  else projects

/-- The completion wire format built in `_complete_param`: for each resource
the insertable token `name\:id` paired with the description `name`. -/
def format_candidates (rs : List Resource) : List String :=
  rs.map (fun r => r.name ++ "\\:" ++ toString r.id ++ ":" ++ r.name)

/-- Admissible results of iterating the CPython `set(...)` built from the
list `xs`: any duplicate-free enumeration of exactly the elements of `xs`.
CPython specifies no iteration order for a set of resource objects (their
hashes come from memory addresses), so the source guarantees nothing more
than this. -/
def IsPySet (xs out : List Resource) : Prop :=
  out.Nodup ∧ out ⊆ xs ∧ xs ⊆ out

/-! ### The `complete` command

The completion engine replays the already-typed tokens against the declared
parameter schema of the target subcommand, maps the slot index to a declared
parameter, and dispatches on its kind (`_complete_param`). -/

/-- A Python dictionary key as used around `cmd_options`: the keys inserted
are strings (`o for o in p.opts`), but the buggy lookup
`cmd_options[args]` is keyed by the whole argument tuple. -/
inductive PyKey where
  | str : String → PyKey
  | strTuple : List String → PyKey
deriving DecidableEq, Repr

/-- Python dict lookup for the option-arity dict. -/
def dictGetNargs (d : List (PyKey × Nat)) (k : PyKey) : Option Nat :=
  (d.reverse.find? (fun p => decide (p.1 = k))).map (fun p => p.2)

/-- Python list slicing `l[start:stop]` with index normalisation and
clamping. -/
def pySlice (l : List String) (start stop : Int) : List String :=
  let n : Int := l.length
  let norm := fun (i : Int) => if i < 0 then max 0 (i + n) else min i n
  let s := norm start
  let e := norm stop
  if s < e then (l.drop s.toNat).take (e - s).toNat else []

/-- Result of the token-replay loop of `complete`: the adjusted `nth` and
the positional `arg_map`, or the uncaught exception the loop raises. -/
inductive ReplayResult where
  | ok : Int → List (String × String) → ReplayResult
  | keyError : ReplayResult
  | indexError : ReplayResult
deriving DecidableEq, Repr

/-- The replay loop body of `complete`: walk the already-typed tokens;
a positive `skip` consumes an option value; a token starting with `-` looks
up the option arity — the source performs this lookup as
`cmd_options[args]`, i.e. keyed by the whole argument tuple rather than the
current token, which raises `KeyError` because all keys are strings —
otherwise the token is recorded for the next positional parameter
(`cmd_params[nth_param]`, raising `IndexError` when out of range). -/
def replayGo (cmd_options : List (PyKey × Nat)) (cmd_params : List String)
    (argsFull : List String) :
    List String → Nat → Nat → List (String × String) → Int → ReplayResult
  | [], _, _, argMap, nth => .ok nth argMap
  | a :: rest, skip, nthParam, argMap, nth =>
    if 0 < skip then replayGo cmd_options cmd_params argsFull rest (skip - 1) nthParam argMap nth
    else if startsWithL a.data ['-'] then
      match dictGetNargs cmd_options (.strTuple argsFull) with
      | none => .keyError
      | some k => replayGo cmd_options cmd_params argsFull rest k nthParam argMap (nth - k)
    else
      match cmd_params.get? nthParam with
      | none => .indexError
      | some pname =>
        replayGo cmd_options cmd_params argsFull rest skip (nthParam + 1)
          (argMap ++ [(pname, a)]) nth

/-- The replay of `complete` over `args[1:nth-1]`. -/
def replay (cmd_options : List (PyKey × Nat)) (cmd_params : List String)
    (args : List String) (nth : Int) : ReplayResult :=
  replayGo cmd_options cmd_params args (pySlice args 1 (nth - 1)) 0 0 [] nth

/-- A declared positional parameter: click parameter name and type name. -/
structure CmdParam where
  pname : String
  ptype : String
deriving DecidableEq, Repr

/-- A declared option for the `--options` listing: its spellings, help text
and whether it has a secondary (negating) form. -/
structure OptSpec where
  names : List String
  help : String
  hasSecondary : Bool
deriving DecidableEq, Repr

/-- A registered subcommand: name, positional parameters in declared order,
the option-arity dict, and the option descriptors. -/
structure CmdSpec where
  cname : String
  params : List CmdParam
  options : List (PyKey × Nat)
  optionObjs : List OptSpec
deriving DecidableEq, Repr

/-- External collaborators of the completion engine: the bulk project list
(`_all_projects`), the single-id project fetch (`get_project`), the remote
issue filter (`_issues(subject, project_id)`), the per-project activity list
(`project.time_entry_activities`), the fuzzywuzzy scorer, the iteration
order chosen by CPython for `set(...)`, and the current date string. -/
structure CompleteEnv where
  projectsAll : List Resource
  projectById : Int → Option Resource
  issuesFetch : Option String → Option Int → List Resource
  activitiesOf : Int → List Resource
  score : String → Resource → Nat
  setOrder : List Resource → List Resource
  todayStr : String

/-- The binding state of the local variable `project` in `_complete_param`
after `try: project = _convert_param('project', ...) except: pass`:
unbound when the conversion raised (swallowed by the bare except), bound to
`None` for the token `0`, or bound to a resource. -/
inductive PBind where
  | unbound : PBind
  | boundNone : PBind
  | bound : Resource → PBind
deriving DecidableEq, Repr

/-- How a `ProjectType.convert` outcome binds the `project` variable: the
two failure outcomes raise (a click `UsageError`), which the bare `except`
swallows, leaving the variable unbound. -/
def bindingOfResolved : Resolved → PBind
  | .okSome r => .bound r
  | .okNone => .boundNone
  | .failNotFound => .unbound
  | .failNotANumber => .unbound

/-- The guarded `project` conversion in `_complete_param`; a missing value
(`None`) raises `AttributeError` inside `convert` (`None.split`), also
swallowed. -/
def convert_project_binding (byId : Int → Option Resource) (v : Option String) : PBind :=
  match v with
  | none => .unbound
  | some s => bindingOfResolved (convert_id_type byId s)

/-- Lookup in the replayed `arg_map`. -/
def amGet (m : List (String × String)) (k : String) : Option String :=
  ((m.reverse.find? (fun p => decide (p.1 = k))).map (fun p => p.2))

/-- The value `_complete_param` returns, keeping the Python type that
decides the truthiness test at the call site: a plain list (falsy when
empty), an `itertools.chain` object (always truthy, even when it yields
nothing), `None`, or an uncaught exception (`NameError`/`AttributeError`
when the issue or activity branch touches an unbound or `None` project). -/
inductive ParamCompletion where
  | plainList : List String → ParamCompletion
  | chain : List String → ParamCompletion
  | noneR : ParamCompletion
  | raiseAttr : ParamCompletion
deriving DecidableEq, Repr

/-- `_complete_param(param, value_map)`: dispatch on the declared kind of
the parameter occupying the completed slot.  The project/issue/activity
branches chain id-prefix matches, fuzzy/remote name matches and scoped
activities, deduplicate through `set(...)` (modelled by `env.setOrder`) and
format candidates; hours, description and date return fixed suggestion
lists; any other kind returns `None`. -/
def complete_param (env : CompleteEnv) (param : Option CmdParam)
    (value_map : List (String × String)) : ParamCompletion :=
  match param with
  | none => .noneR
  | some p =>
    let value := amGet value_map p.pname
    let pb := convert_project_binding env.projectById (amGet value_map "project")
    if p.ptype = "project" then
      .chain (format_candidates (env.setOrder
        (_id_match env.projectsAll value ++ _projects_f env.score 80 value env.projectsAll)))
    else if p.ptype = "issue" then
      match pb with
      | .bound pr =>
        .chain (format_candidates (env.setOrder
          (_id_match (env.issuesFetch none (some pr.id)) value ++
            env.issuesFetch value (some pr.id))))
      | _ => .raiseAttr
    else if p.ptype = "activity" then
      match pb with
      | .bound pr => .chain (format_candidates (env.setOrder (env.activitiesOf pr.id)))
      | _ => .raiseAttr
    else if p.pname = "hours" then .plainList ["2:hours", "4:hours", "6:hours", "8:hours"]
    else if p.pname = "description" then .plainList ["...:description"]
    else if p.ptype = "date" then .plainList [env.todayStr ++ ":" ++ p.pname]
    else .noneR

/-- Observable outcome of one `complete` invocation: a process exit with an
exit code and the exact standard output, or an uncaught exception. -/
inductive CompleteObs where
  | exitC : Nat → String → CompleteObs
  | raiseExc : String → CompleteObs
deriving DecidableEq, Repr

/-- Stdout of the final `print(chr(10).join(list(result)))`. -/
def joinOut (ls : List String) : String := String.intercalate "\n" ls ++ "\n"

/-- The tail of `complete`: `if not result: sys.exit(1)` followed by the
print.  A `None` result and an empty plain list are falsy and exit 1; a
chain object is always truthy, so an empty chain prints the empty join (one
blank line) and exits 0. -/
def completeTail : ParamCompletion → CompleteObs
  | .noneR => .exitC 1 ""
  | .plainList [] => .exitC 1 ""
  | .plainList ls => .exitC 0 (joinOut ls)
  | .chain ls => .exitC 0 (joinOut ls)
  | .raiseAttr => .raiseExc "AttributeError"

/-- The `--options` branch of `complete`: list each option spelling with its
help text, raising `NotImplementedError` when any option has a secondary
(negating) form.  (The source iterates `set(cmd_options.values())`, whose
order is unspecified; the raise is order-independent because an exception
discards all appended lines, and no claim depends on the line order, which
is modelled here as declaration order.) -/
def completeOptionsBranch (opts : List OptSpec) : CompleteObs :=
  if opts.any (fun o => o.hasSecondary) then .raiseExc "NotImplementedError"
  else
    let lines := (opts.map (fun o => o.names.map (fun n => n ++ ":" ++ o.help))).flatten
    if lines.isEmpty then .exitC 1 "" else .exitC 0 (joinOut lines)

/-- The `complete` command: with no args, list subcommands (or, with
`--options`, return silently); with an unknown subcommand, return silently
(exit 0, no output); otherwise either list the options or complete the
`nth` token: a missing `nth` exits 1, the replay may raise, an out-of-range
positional index exits 1, and otherwise `_complete_param` and the common
tail decide the outcome. -/
def complete_run (env : CompleteEnv) (cmds : List CmdSpec) (cliLines : List String)
    (args : List String) (optionsFlag : Bool) (nth : Option Int) : CompleteObs :=
  match args with
  | [] =>
    if optionsFlag then .exitC 0 ""
    else if cliLines.isEmpty then .exitC 1 "" else .exitC 0 (joinOut cliLines)
  | a0 :: _ =>
    match cmds.find? (fun c => decide (c.cname = a0)) with
    | none => .exitC 0 ""
    | some cmd =>
      if optionsFlag then completeOptionsBranch cmd.optionObjs
      else
        match nth with
        | none => .exitC 1 ""
        | some n =>
          match replay cmd.options (cmd.params.map (fun p => p.pname)) args n with
          | .keyError => .raiseExc "KeyError"
          | .indexError => .raiseExc "IndexError"
          | .ok n2 argMap =>
            let m : Int := n2 - 2
            if m < 0 ∨ (cmd.params.length : Int) ≤ m then .exitC 1 ""
            else completeTail (complete_param env (cmd.params.get? m.toNat) argMap)

/-- Positional parameters of the `log` subcommand, in declared order. -/
def log_params : List CmdParam :=
  [⟨"project", "project"⟩, ⟨"issue", "issue"⟩, ⟨"activity", "activity"⟩,
   ⟨"hours", "float"⟩, ⟨"description", "text"⟩]

/-- The option-arity dict of the `log` subcommand (every click option here
declares `nargs = 1`; the arity is never reached because the buggy lookup
is keyed by the argument tuple). -/
def log_options : List (PyKey × Nat) :=
  [(.str "--yesterday", 1), (.str "-y", 1), (.str "--date", 1),
   (.str "--until-date", 1), (.str "--weekdays", 1), (.str "--max-day-hours", 1)]

/-- Option descriptors of `log` for the `--options` listing. -/
def log_optionObjs : List OptSpec :=
  [⟨["--yesterday", "-y"], "Change date of log entry to yesterday", false⟩,
   ⟨["--date"], "Change date of log entry", false⟩,
   ⟨["--until-date"], "Repeat log entry until given date (inclusive)", false⟩,
   ⟨["--weekdays"], "Allow weekend logging", false⟩,
   ⟨["--max-day-hours"], "Max hours per day (entries exceeding this limit will be ignored)", false⟩]

/-- The `log` subcommand schema. -/
def log_spec : CmdSpec := ⟨"log", log_params, log_options, log_optionObjs⟩

/-- The registered subcommands of the CLI group (schemas of the commands
other than `log` are recorded with their positional parameters and option
names; their help texts, unused by any theorem, are elided). -/
def allCmds : List CmdSpec :=
  [log_spec,
   ⟨"projects", [⟨"name", "text"⟩],
    [(.str "--name-id", 1), (.str "--id", 1), (.str "--name", 1),
     (.str "--one", 1), (.str "--threshold", 1)], []⟩,
   ⟨"log-entry", [⟨"time_entries", "time_entry"⟩],
    [(.str "--rm", 1), (.str "--project", 1), (.str "--issue", 1), (.str "--activity", 1)], []⟩,
   ⟨"issues", [⟨"subject", "text"⟩],
    [(.str "--subject-id", 1), (.str "--id", 1), (.str "--subject", 1), (.str "--one", 1)], []⟩,
   ⟨"activities", [⟨"name", "text"⟩],
    [(.str "--name-id", 1), (.str "--id", 1), (.str "--name", 1)], []⟩,
   ⟨"configure", [],
    [(.str "--api-url", 1), (.str "--api-key", 1), (.str "--username", 1),
     (.str "--password", 1), (.str "--ask-password", 1)], []⟩,
   ⟨"overview", [],
    [(.str "--from-date", 1), (.str "--to-date", 1), (.str "--limit", 1),
     (.str "--offset", 1)], []⟩,
   ⟨"complete", [⟨"args", "text"⟩],
    [(.str "--options", 1), (.str "--nth", 1)], []⟩]

/-! ### The scheduler: `date_range` and the `log` command loop

Dates are proleptic-Gregorian ordinals (`datetime.date.toordinal`), so
ordinal 1 is a Monday and `isoweekday` is determined by the ordinal modulo
7.  Hours are rationals (the source compares Python floats and ints
exactly; every value in the claims is exactly representable). -/

/-- `date.isoweekday()`: 1 = Monday .. 7 = Sunday, from the ordinal. -/
def isoweekday (d : Nat) : Nat := (d - 1) % 7 + 1

/-- `date_range(start, end)`: the inclusive ascending day range, with a
missing end collapsing to the single start day. -/
def date_range (start : Nat) (endd : Option Nat) : List Nat :=
  (List.range (endd.getD start + 1 - start)).map (fun k => start + k)

/-- `skip_weekdays = not weekdays and until_date is not None`. -/
def skipWeekdaysFlag (weekdays : Bool) (until_date : Option Nat) : Bool :=
  !weekdays && until_date.isSome

/-- The weekend test applied to each day of the range:
`skip_weekdays and entry_date.isoweekday() > 5`. -/
def wkSkip (skipW : Bool) (d : Nat) : Bool := skipW && decide (5 < isoweekday d)

/-- The per-day outcome the `log` loop reports: a created entry (with the
remote id) or the printed over-cap skip.  Weekend-skipped days produce no
report at all (`continue`), so they have no constructor here. -/
inductive DayOutcome where
  | created : Nat → DayOutcome
  | skippedOverCap : DayOutcome
deriving DecidableEq, Repr

/-- Observables of one `log` command run: the per-day reports in order, the
days on which a remote create call was issued, and the error of the
`ValidationError` that aborted the loop, if any (printed by the top level
as `Error: ...`, without naming the day). -/
structure LogResult where
  outcomes : List (Nat × DayOutcome)
  calls : List Nat
  failure : Option String
deriving DecidableEq, Repr

/-- The `log` command loop over an explicit day list: skip weekends
silently; query the day's already-logged hours and skip (with a report)
when `hours + already_logged > max_day_hours`; otherwise issue the remote
create, which either reports the created entry or raises, aborting the
remaining days. -/
def logGo (entries : Nat → List ℚ) (create : Nat → Except String Nat)
    (hours cap : ℚ) (skipW : Bool) : List Nat → LogResult
  | [] => ⟨[], [], none⟩
  | d :: rest =>
    if wkSkip skipW d then logGo entries create hours cap skipW rest
    else if cap < hours + (entries d).sum then
      ⟨(d, .skippedOverCap) :: (logGo entries create hours cap skipW rest).outcomes,
       (logGo entries create hours cap skipW rest).calls,
       (logGo entries create hours cap skipW rest).failure⟩
    else
      match create d with
      | .error e => ⟨[], [d], some e⟩
      | .ok i =>
        ⟨(d, .created i) :: (logGo entries create hours cap skipW rest).outcomes,
         d :: (logGo entries create hours cap skipW rest).calls,
         (logGo entries create hours cap skipW rest).failure⟩

/-- The `log` command: iterate `date_range(date, until_date)` with the
weekend policy `skip_weekdays = not weekdays and until_date is not None`
and the daily cap. -/
def logRun (entries : Nat → List ℚ) (create : Nat → Except String Nat)
    (hours cap : ℚ) (start : Nat) (until_date : Option Nat) (weekdays : Bool) : LogResult :=
  logGo entries create hours cap (skipWeekdaysFlag weekdays until_date)
    (date_range start until_date)

/-! ### `DateType.convert` -/

/-- A calendar date as year, month, day. -/
structure Pdate where
  year : Nat
  month : Nat
  day : Nat
deriving DecidableEq, Repr

/-- Gregorian leap year. -/
def isLeap (y : Nat) : Bool := (y % 4 = 0 && y % 100 ≠ 0) || (y % 400 = 0)

/-- Days in a Gregorian month, as `datetime.date.replace` validates them. -/
def daysInMonth (y m : Nat) : Nat :=
  if m = 2 then (if isLeap y then 29 else 28)
  else if m = 4 ∨ m = 6 ∨ m = 9 ∨ m = 11 then 30 else 31

/-- Python `str.isnumeric` restricted to ASCII: a nonempty digit string.
(Python also accepts further Unicode numeric characters; the claims only
quantify over digit tokens, so the ASCII restriction is faithful there.) -/
def pyIsNumericAscii (s : String) : Bool := !s.data.isEmpty && s.data.all Char.isDigit

/-- Outcome of `DateType.convert`: a parsed date, the
`self.fail('Not a date format')` after all formats failed, or the uncaught
`ValueError` that `date.replace(day=...)` raises for an out-of-range day. -/
inductive DateResult where
  | ok : Pdate → DateResult
  | failNotADate : DateResult
  | raiseValueError : DateResult
deriving DecidableEq, Repr

/-- The declared date formats of the `DATE` parameter type. -/
def dateFormats : List String :=
  ["%d-%m-%Y", "%d/%m/%Y", "%d.%m.%Y", "%Y-%m-%d", "%Y/%m/%d", "%Y.%m.%d"]

/-- `DateType.convert` on a string value (the `isinstance(value, date)`
short-circuit for already-parsed defaults is outside the string-token
domain): a numeric token replaces the day of today's date — raising
`ValueError` when the integer is not a valid day of that month — and only
otherwise are the declared formats tried in order via `strptime`, modelled
as an external parser parameter. -/
def date_convert (strptime : String → String → Option Pdate) (formats : List String)
    (todayD : Pdate) (value : String) : DateResult :=
  if pyIsNumericAscii value then
    let n := digitsToNat value.data
    if 1 ≤ n ∧ n ≤ daysInMonth todayD.year todayD.month then
      .ok ⟨todayD.year, todayD.month, n⟩
    else .raiseValueError
  else
    match formats.findSome? (fun f => strptime value f) with
    | some d => .ok d
    | none => .failNotADate

/-! ### Characterisations of the scheduler loop (used by the proofs) -/

/-- Projection of a successful create result (never applied to errors in a
run whose creates all succeed). -/
def getOk : Except String Nat → Nat
  | .ok i => i
  | .error _ => 0

/-- The report a given day produces in a run whose creates all succeed. -/
def dayDecision (entries : Nat → List ℚ) (create : Nat → Except String Nat)
    (hours cap : ℚ) (skipW : Bool) (d : Nat) : Option (Nat × DayOutcome) :=
  if wkSkip skipW d then none
  else if cap < hours + (entries d).sum then some (d, .skippedOverCap)
  else some (d, .created (getOk (create d)))

/-- Whether a day receives a remote create call in a run whose creates all
succeed. -/
def dayCalled (entries : Nat → List ℚ) (hours cap : ℚ) (skipW : Bool) (d : Nat) : Bool :=
  !wkSkip skipW d && decide (hours + (entries d).sum ≤ cap)

/-! ### Concrete instances used by witnesses and counterexamples -/

/-- A scorer assigning every candidate score 0 (no fuzzy match clears any
positive threshold); the exact-lookup code paths never consult it. -/
def scoreZero : String → Resource → Nat := fun _ _ => 0

/-- Sample project. -/
def atlas : Resource := ⟨3, "Atlas"⟩

/-- Sample activities. -/
def devAct : Resource := ⟨1, "Development"⟩

/-- Sample activities. -/
def desAct : Resource := ⟨2, "Design"⟩

/-- Sample projects for the ranking scenario. -/
def p12 : Resource := ⟨12, "a"⟩

/-- Sample projects for the ranking scenario. -/
def p120 : Resource := ⟨120, "b"⟩

/-- Sample projects for the ranking scenario. -/
def p5 : Resource := ⟨5, "c"⟩

/-- Completion environment for the ranking scenario whose admissible set
iteration order happens to be the reversal of insertion order. -/
def envRev : CompleteEnv :=
  ⟨[p12, p120, p5], fun _ => none, fun _ _ => [], fun _ => [], scoreZero,
   List.reverse, "2026-10-12"⟩

/-- Completion environment with an empty remote project collection and the
identity set order. -/
def env0 : CompleteEnv :=
  ⟨[], fun _ => none, fun _ _ => [], fun _ => [], scoreZero, fun l => l, "2026-10-12"⟩

/-- A remote create that always succeeds, returning 100 plus the day. -/
def createOk : Nat → Except String Nat := fun d => Except.ok (100 + d)

/-- A remote create that fails on day 2 and succeeds elsewhere. -/
def createFail2 : Nat → Except String Nat :=
  fun d => if d = 2 then Except.error "boom" else Except.ok (100 + d)

/-- Six hours already logged on every day. -/
def entriesSix : Nat → List ℚ := fun _ => [6]

/-- No hours logged on any day. -/
def entriesNone : Nat → List ℚ := fun _ => []

/-! ## Helper lemmas -/

/-- `afterLastColon` leaves a colon-free suffix untouched. -/
theorem afterLastColon_no_colon :
    ∀ (cs acc : List Char), (∀ c ∈ cs, c ≠ ':') →
      afterLastColon cs acc = acc.reverse ++ cs
  | [], acc, _ => by simp [afterLastColon]
  | c :: cs, acc, h => by
    have hc : c ≠ ':' := h c (List.mem_cons_self c cs)
    rw [afterLastColon, if_neg hc,
      afterLastColon_no_colon cs (c :: acc) (fun x hx => h x (List.mem_cons_of_mem c hx))]
    simp

/-- `afterLastColon` restarts after every colon. -/
theorem afterLastColon_append :
    ∀ (xs ys acc : List Char), afterLastColon (xs ++ ':' :: ys) acc = afterLastColon ys []
  | [], ys, acc => by simp [afterLastColon]
  | x :: xs, ys, acc => by
    by_cases hx : x = ':'
    · rw [List.cons_append, afterLastColon, if_pos hx]
      exact afterLastColon_append xs ys []
    · rw [List.cons_append, afterLastColon, if_neg hx]
      exact afterLastColon_append xs ys (x :: acc)

/-- A decimal digit is not a colon, minus or plus sign. -/
theorem isDigit_ne (c : Char) (h : c.isDigit = true) : c ≠ ':' ∧ c ≠ '-' ∧ c ≠ '+' := by
  refine ⟨?_, ?_, ?_⟩ <;> intro hc <;> rw [hc] at h <;> exact absurd h (by decide)

/-- `pyIntL` on a nonempty digit string yields its decimal value. -/
theorem pyIntL_digits :
    ∀ cs : List Char, cs ≠ [] → cs.all Char.isDigit = true →
      pyIntL cs = some ((digitsToNat cs : Nat) : Int)
  | [], h, _ => absurd rfl h
  | c :: cs, _, hall => by
    have hc : c.isDigit = true := by
      have := List.all_eq_true.mp hall
      exact this c (List.mem_cons_self c cs)
    obtain ⟨-, h2, h3⟩ := isDigit_ne c hc
    rw [pyIntL, if_neg h2, if_neg h3, if_pos hall]

/-- A numeric token has no colon, so the split leaves it unchanged. -/
theorem numeric_afterLastColon (t : String) (h : isNumericToken t = true) :
    afterLastColon t.data [] = t.data := by
  have hall : ∀ c ∈ t.data, c.isDigit = true := by
    have := (Bool.and_eq_true _ _).mp h
    exact List.all_eq_true.mp this.2
  simpa using afterLastColon_no_colon t.data [] (fun c hc => (isDigit_ne c (hall c hc)).1)

/-- A numeric token parses through the split-then-int pipeline to its
decimal value. -/
theorem numeric_pyIntL (t : String) (h : isNumericToken t = true) :
    pyIntL (afterLastColon t.data []) = some ((digitsToNat t.data : Nat) : Int) := by
  have hne : t.data ≠ [] := by
    have := (Bool.and_eq_true _ _).mp h
    simpa using this.1
  have hall : t.data.all Char.isDigit = true := ((Bool.and_eq_true _ _).mp h).2
  rw [numeric_afterLastColon t h]
  exact pyIntL_digits t.data hne hall

/-! ## C1: numeric-token resolution -/

/-- C1 (counterexample): the claim says that for every numeric token the
resolver returns the resource with that id or fails not-found when none
exists.  The numeric token `0` refutes it: with an empty collection (so no
resource has id 0) the conversion returns the null resource (`None`)
without failing, because `get_project(value) if value else None`
short-circuits on the falsy integer 0. -/
theorem c1_zero_token_counterexample :
    isNumericToken "0" = true ∧
    convert_id_type (get_by_id []) "0" = Resolved.okNone ∧
    Resolved.okNone ≠ Resolved.failNotFound := by
  refine ⟨by decide, by decide, by decide⟩

/-- C1 (amended): for every numeric token whose integer value is nonzero,
exact-mode id resolution returns the resource whose id equals the token
value, and fails not-found when no resource with that id exists; the
lookup consults only the id store, never a cached free-text collection
(the definition takes no such collection).  The numeric token `0` instead
resolves to the null resource without any lookup. -/
theorem c1_numeric_resolution (env : List Resource) (t : String)
    (hnum : isNumericToken t = true) (hnz : digitsToNat t.data ≠ 0) :
    (∃ r, r ∈ env ∧ r.id = ((digitsToNat t.data : Nat) : Int) ∧
        convert_id_type (get_by_id env) t = Resolved.okSome r)
    ∨ ((∀ r ∈ env, r.id ≠ ((digitsToNat t.data : Nat) : Int)) ∧
        convert_id_type (get_by_id env) t = Resolved.failNotFound) := by
  have hp := numeric_pyIntL t hnum
  have hz : ((digitsToNat t.data : Nat) : Int) ≠ 0 := by exact_mod_cast hnz
  have hconv : convert_id_type (get_by_id env) t =
      (match get_by_id env ((digitsToNat t.data : Nat) : Int) with
       | some r => Resolved.okSome r
       | none => Resolved.failNotFound) := by
    unfold convert_id_type
    rw [hp]
    simp [hz]
  cases h : get_by_id env ((digitsToNat t.data : Nat) : Int) with
  | some r =>
    left
    have hfind := h
    unfold get_by_id at hfind
    refine ⟨r, List.mem_of_find?_eq_some hfind, ?_, by rw [hconv, h]⟩
    simpa using List.find?_some hfind
  | none =>
    right
    refine ⟨?_, by rw [hconv, h]⟩
    intro r hr hid
    have hfind := h
    unfold get_by_id at hfind
    have hn := List.find?_eq_none.mp hfind r hr
    exact hn (by simp [hid])

/-- Witness for C1 at the spec scenario: collection Atlas with id 3, token
`3` resolves to Atlas. -/
theorem c1_numeric_resolution_witness :
    (∃ r, r ∈ [atlas] ∧ r.id = ((digitsToNat "3".data : Nat) : Int) ∧
        convert_id_type (get_by_id [atlas]) "3" = Resolved.okSome r)
    ∨ ((∀ r ∈ [atlas], r.id ≠ ((digitsToNat "3".data : Nat) : Int)) ∧
        convert_id_type (get_by_id [atlas]) "3" = Resolved.failNotFound) :=
  c1_numeric_resolution [atlas] "3" (by decide) (by decide)

/-! ## C7: composite tokens depend only on the trailing id -/

/-- C7: for composite tokens built from any two labels and the same
trailing id segment (an integer-parsing, colon-free segment), exact-mode
resolution produces the same result: only the text after the last colon is
parsed and looked up. -/
theorem c7_composite_label_irrelevant (byId : Int → Option Resource) (l1 l2 i : String)
    (_hparse : (pyIntL i.data).isSome = true) (hnc : ':' ∉ i.data) :
    convert_id_type byId (l1 ++ ":" ++ i) = convert_id_type byId (l2 ++ ":" ++ i) := by
  have key : ∀ l : String, afterLastColon (l ++ ":" ++ i).data [] = i.data := by
    intro l
    have hdata : (l ++ ":" ++ i).data = l.data ++ ':' :: i.data := by
      rw [String.data_append, String.data_append, List.append_assoc]
      rfl
    rw [hdata, afterLastColon_append]
    have hno : ∀ c ∈ i.data, c ≠ ':' := fun c hc hceq => hnc (hceq ▸ hc)
    simpa using afterLastColon_no_colon i.data [] hno
  unfold convert_id_type
  rw [key l1, key l2]

/-- Witness for C7: labels `alpha` and `beta` with id segment `5` resolve
identically. -/
theorem c7_composite_label_irrelevant_witness :
    convert_id_type (get_by_id [⟨5, "X"⟩]) ("alpha" ++ ":" ++ "5") =
      convert_id_type (get_by_id [⟨5, "X"⟩]) ("beta" ++ ":" ++ "5") :=
  c7_composite_label_irrelevant (get_by_id [⟨5, "X"⟩]) "alpha" "beta" "5"
    (by decide) (by decide)

/-! ## C2: free-text activity resolution -/

/-- C2 (counterexample): the claim says free-text exact-mode resolution runs
fuzzy matching and fails Ambiguous (listing Development and Design) for the
token `des`.  The code instead performs an exact lower-cased name lookup:
`des` hits the `KeyError` branch and fails with the single not-found error,
and no ambiguous outcome listing both candidates exists. -/
theorem c2_fuzzy_counterexample :
    activity_convert scoreZero [devAct, desAct] "des" = ActResolved.notFound ∧
    ActResolved.notFound ≠ ActResolved.many [devAct, desAct] := by
  refine ⟨by decide, by decide⟩

/-- C2 (amended): in exact mode a non-empty free-text token (one that does
not parse as an integer after the colon split) is resolved by an exact
case-insensitive name lookup over the cached collection, with no fuzzy
matching: if some activity's lower-cased name equals the lower-cased token
that activity is returned, and otherwise resolution fails not-found; an
ambiguous outcome cannot arise. -/
theorem c2_freetext_exact_lookup (score : String → Resource → Nat)
    (activities : List Resource) (value : String)
    (hfree : pyIntL (afterLastColon value.data []) = none)
    (hne : pyLower value ≠ "") :
    (∃ a, a ∈ activities ∧ pyLower a.name = pyLower value ∧
        activity_convert score activities value = ActResolved.one a)
    ∨ ((∀ a ∈ activities, pyLower a.name ≠ pyLower value) ∧
        activity_convert score activities value = ActResolved.notFound) := by
  have htr : truthyOS (some (pyLower value)) = true := by
    simp [truthyOS, Option.getD, hne]
  have hconv : activity_convert score activities value =
      actOfWA (with_activities score activities (some (pyLower value)) none none 80) := by
    unfold activity_convert
    rw [hfree]
  cases h : (nameIndex activities).reverse.find? (fun p => decide (p.1 = pyLower value)) with
  | some p =>
    have hmem : p ∈ nameIndex activities := List.mem_reverse.mp (List.mem_of_find?_eq_some h)
    obtain ⟨a0, ha0, hpa⟩ := List.mem_map.mp hmem
    have hkey : p.1 = pyLower value := by simpa using List.find?_some h
    left
    refine ⟨p.2, ?_, ?_, ?_⟩
    · rw [← hpa]; exact ha0
    · rw [← hpa] at hkey ⊢; exact hkey
    · rw [hconv]
      unfold with_activities
      rw [if_pos htr]
      unfold dictGetStr
      simp only [Option.getD_some, h, Option.map_some']
      rfl
  | none =>
    right
    constructor
    · intro a ha hal
      have hn := List.find?_eq_none.mp h (pyLower a.name, a)
        (List.mem_reverse.mpr (List.mem_map.mpr ⟨a, ha, rfl⟩))
      exact hn (by simp [hal])
    · rw [hconv]
      unfold with_activities
      rw [if_pos htr]
      unfold dictGetStr
      simp only [Option.getD_some, h, Option.map_none']
      rfl

/-- Witness for C2 at the spec scenario: activities Development and Design,
token `des` — the right disjunct holds (no exact name match, not-found). -/
theorem c2_freetext_exact_lookup_witness :
    (∃ a, a ∈ [devAct, desAct] ∧ pyLower a.name = pyLower "des" ∧
        activity_convert scoreZero [devAct, desAct] "des" = ActResolved.one a)
    ∨ ((∀ a ∈ [devAct, desAct], pyLower a.name ≠ pyLower "des") ∧
        activity_convert scoreZero [devAct, desAct] "des" = ActResolved.notFound) :=
  c2_freetext_exact_lookup scoreZero [devAct, desAct] "des" (by decide) (by decide)

/-! ## C3: enumeration ranking -/

/-- C3 (code bug): `_id_match` does produce the id-prefix matches `[12, 120]`
in ascending order for the token `12` over ids `[12, 120, 5]`, and the code
chains them ahead of the fuzzy matches — but it then passes the chain
through `set(...)`, whose iteration order over resource objects is
unspecified, before formatting.  The reversal `[120, 12]` is an admissible
set iteration of the chained list (duplicate-free, same elements), and under
it `_complete_param` emits the candidate for id 120 before the candidate for
id 12, so the code does not deliver the claimed ranked sequence. -/
theorem c3_set_discards_ranking :
    _id_match [p12, p120, p5] (some "12") = [p12, p120] ∧
    IsPySet (_id_match [p12, p120, p5] (some "12") ++
      _projects_f scoreZero 80 (some "12") [p12, p120, p5]) [p120, p12] ∧
    complete_param envRev (some ⟨"project", "project"⟩) [("project", "12")] =
      ParamCompletion.chain ["b\\:120:b", "a\\:12:a"] := by
  refine ⟨by decide, ⟨by decide, by decide, by decide⟩, by decide⟩

/-! ## C4: option replay during completion -/

/-- C4 (code bug): replaying the typed tokens
`log proj1 --date 2024-01-01 iss` to complete the token after the option
value crashes with `KeyError` instead of skipping the option and its value:
the source looks up the option-arity dict with the whole argument tuple
(`cmd_options[args]`) rather than the current token, and all keys are
strings.  No issue candidates are produced for any environment. -/
theorem c4_replay_keyerror (env : CompleteEnv) :
    replay log_options (log_params.map (fun p => p.pname))
        ["log", "proj1", "--date", "2024-01-01", "iss"] 5 = ReplayResult.keyError ∧
    complete_run env allCmds [] ["log", "proj1", "--date", "2024-01-01", "iss"] false
        (some 5) = CompleteObs.raiseExc "KeyError" := by
  exact ⟨by decide, rfl⟩

/-! ## C10: digit-only date tokens -/

/-- C10 (counterexample): the claim says a digit-only date token never
fails.  The token `0` (and likewise any digit token that is not a valid day
of the current month, such as `32`) makes `date.replace(day=...)` raise an
uncaught `ValueError`. -/
theorem c10_day_zero_counterexample :
    date_convert (fun _ _ => none) dateFormats ⟨2026, 10, 12⟩ "0" =
      DateResult.raiseValueError ∧
    date_convert (fun _ _ => none) dateFormats ⟨2026, 10, 12⟩ "32" =
      DateResult.raiseValueError := by
  refine ⟨by decide, by decide⟩

/-- C10 (amended): for every digit-only date token the declared formats are
never consulted (the result is independent of the format list and of the
format parser); the token yields today's year and month with the day
replaced by its value when that value is a valid day of the current month,
and otherwise raises an uncaught `ValueError`. -/
theorem c10_numeric_date (st1 st2 : String → String → Option Pdate)
    (fmts1 fmts2 : List String) (todayD : Pdate) (v : String)
    (h : pyIsNumericAscii v = true) :
    date_convert st1 fmts1 todayD v = date_convert st2 fmts2 todayD v ∧
    ((1 ≤ digitsToNat v.data ∧ digitsToNat v.data ≤ daysInMonth todayD.year todayD.month) →
      date_convert st1 fmts1 todayD v =
        DateResult.ok ⟨todayD.year, todayD.month, digitsToNat v.data⟩) ∧
    (¬ (1 ≤ digitsToNat v.data ∧
        digitsToNat v.data ≤ daysInMonth todayD.year todayD.month) →
      date_convert st1 fmts1 todayD v = DateResult.raiseValueError) := by
  unfold date_convert
  rw [if_pos h, if_pos h]
  refine ⟨rfl, ?_, ?_⟩
  · intro hrange
    rw [if_pos hrange]
  · intro hrange
    rw [if_neg hrange]

/-! ## Scheduler lemmas -/

/-- A day report always names the day that produced it. -/
theorem dayDecision_fst (entries : Nat → List ℚ) (create : Nat → Except String Nat)
    (hours cap : ℚ) (skipW : Bool) (d : Nat) (x : Nat × DayOutcome)
    (h : dayDecision entries create hours cap skipW d = some x) : x.1 = d := by
  unfold dayDecision at h
  split at h
  · cases h
  · split at h <;> cases h <;> rfl

/-- When every create succeeds, the `log` loop reports exactly the per-day
decisions and calls exactly the eligible under-cap days, with no failure. -/
theorem logGo_total (entries : Nat → List ℚ) (create : Nat → Except String Nat)
    (hours cap : ℚ) (skipW : Bool) :
    ∀ ds : List Nat, (∀ d ∈ ds, ∃ i, create d = Except.ok i) →
      logGo entries create hours cap skipW ds =
        ⟨ds.filterMap (dayDecision entries create hours cap skipW),
         ds.filter (fun d => dayCalled entries hours cap skipW d), none⟩
  | [], _ => rfl
  | d :: ds, h => by
    have ih := logGo_total entries create hours cap skipW ds
      (fun x hx => h x (List.mem_cons_of_mem d hx))
    by_cases hw : wkSkip skipW d = true
    · simp [logGo, hw, ih, dayDecision, dayCalled, List.filterMap_cons, List.filter_cons]
    · rw [Bool.not_eq_true] at hw
      by_cases hc : cap < hours + (entries d).sum
      · have hnle : ¬ (hours + (entries d).sum ≤ cap) := not_le.mpr hc
        simp [logGo, hw, hc, ih, dayDecision, dayCalled, hnle,
          List.filterMap_cons, List.filter_cons]
      · obtain ⟨i, hi⟩ := h d (List.mem_cons_self d ds)
        have hle : hours + (entries d).sum ≤ cap := not_lt.mp hc
        simp [logGo, hw, hc, hi, ih, dayDecision, dayCalled, hle, getOk,
          List.filterMap_cons, List.filter_cons]

/-- The weekend-skip test, spelled out on the command inputs. -/
theorem wkSkip_iff (weekdays : Bool) (u : Option Nat) (d : Nat) :
    wkSkip (skipWeekdaysFlag weekdays u) d = true ↔
      (weekdays = false ∧ u.isSome = true ∧ 5 < isoweekday d) := by
  simp [wkSkip, skipWeekdaysFlag, Bool.and_eq_true, and_assoc]

/-! ## C5: the daily cap -/

/-- C5: in a run whose creates succeed, every day of the range that is not
weekend-skipped receives a remote create call exactly when the new hours
plus the hours already logged that day do not exceed the daily cap, and is
reported as an over-cap skip exactly when the sum strictly exceeds the
cap. -/
theorem c5_daily_cap (entries : Nat → List ℚ) (create : Nat → Except String Nat)
    (hours cap : ℚ) (start : Nat) (until_date : Option Nat) (weekdays : Bool)
    (hcr : ∀ d ∈ date_range start until_date, ∃ i, create d = Except.ok i)
    (d : Nat) (hd : d ∈ date_range start until_date)
    (hw : wkSkip (skipWeekdaysFlag weekdays until_date) d = false) :
    (d ∈ (logRun entries create hours cap start until_date weekdays).calls ↔
      hours + (entries d).sum ≤ cap) ∧
    ((d, DayOutcome.skippedOverCap) ∈
        (logRun entries create hours cap start until_date weekdays).outcomes ↔
      cap < hours + (entries d).sum) := by
  rw [logRun, logGo_total entries create hours cap _ _ hcr]
  constructor
  · rw [List.mem_filter]
    constructor
    · rintro ⟨-, hcall⟩
      simp [dayCalled, hw] at hcall
      exact hcall
    · intro hle
      exact ⟨hd, by simp [dayCalled, hw, hle]⟩
  · rw [List.mem_filterMap]
    constructor
    · rintro ⟨a, _, hda⟩
      have ha : d = a := dayDecision_fst entries create hours cap _ a _ hda
      subst ha
      by_cases hc : cap < hours + (entries d).sum
      · exact hc
      · simp [dayDecision, hw, hc] at hda
    · intro hc
      exact ⟨d, hd, by simp [dayDecision, hw, hc]⟩

/-- Witness for C5 at the spec scenario: 6 hours already logged, 4 new
hours, cap 8 on the single day 1 — no create call, over-cap report. -/
theorem c5_daily_cap_witness :
    (1 ∈ (logRun entriesSix createOk 4 8 1 none false).calls ↔
      4 + (entriesSix 1).sum ≤ 8) ∧
    ((1, DayOutcome.skippedOverCap) ∈ (logRun entriesSix createOk 4 8 1 none false).outcomes ↔
      8 < 4 + (entriesSix 1).sum) :=
  c5_daily_cap entriesSix createOk 4 8 1 none false
    (fun d _ => ⟨100 + d, rfl⟩) 1 (by decide) (by decide)

/-! ## C6: the weekend filter -/

/-- C6: in a run whose creates succeed, a day of the range is absent from
both the reports and the create calls exactly when weekend logging is off,
an end date was given and the day's weekday number exceeds 5; and with no
end date the range is the single start day (so it is never
weekend-filtered). -/
theorem c6_weekend_filter (entries : Nat → List ℚ) (create : Nat → Except String Nat)
    (hours cap : ℚ) (start : Nat) (until_date : Option Nat) (weekdays : Bool)
    (hcr : ∀ d ∈ date_range start until_date, ∃ i, create d = Except.ok i)
    (d : Nat) (hd : d ∈ date_range start until_date) :
    ((d ∉ ((logRun entries create hours cap start until_date weekdays).outcomes.map
        Prod.fst) ∧
      d ∉ (logRun entries create hours cap start until_date weekdays).calls) ↔
      (weekdays = false ∧ until_date.isSome = true ∧ 5 < isoweekday d)) ∧
    (until_date = none → date_range start until_date = [start]) := by
  constructor
  · rw [logRun, logGo_total entries create hours cap _ _ hcr, ← wkSkip_iff]
    constructor
    · rintro ⟨hout, -⟩
      by_contra hns
      rw [Bool.not_eq_true] at hns
      apply hout
      rw [List.mem_map]
      by_cases hc : cap < hours + (entries d).sum
      · exact ⟨(d, DayOutcome.skippedOverCap),
          List.mem_filterMap.mpr ⟨d, hd, by simp [dayDecision, hns, hc]⟩, rfl⟩
      · exact ⟨(d, DayOutcome.created (getOk (create d))),
          List.mem_filterMap.mpr ⟨d, hd, by simp [dayDecision, hns, hc]⟩, rfl⟩
    · intro hs
      constructor
      · intro hmem
        obtain ⟨p, hp, hpd⟩ := List.mem_map.mp hmem
        obtain ⟨a, -, hda⟩ := List.mem_filterMap.mp hp
        have ha : p.1 = a := dayDecision_fst entries create hours cap _ a p hda
        rw [hpd] at ha
        subst ha
        simp [dayDecision, hs] at hda
      · intro hmem
        have := (List.mem_filter.mp hmem).2
        simp [dayCalled, hs] at this
  · intro hn
    simp [date_range, hn, List.range_succ]

/-- Witness for C6 at the spec scenario: range Monday (ordinal 1) to the
next Monday (ordinal 8) with weekend logging off — Saturday (ordinal 6,
weekday 6) is reported nowhere and receives no create call. -/
theorem c6_weekend_filter_witness :
    ((6 ∉ ((logRun entriesNone createOk 4 8 1 (some 8) false).outcomes.map Prod.fst) ∧
      6 ∉ (logRun entriesNone createOk 4 8 1 (some 8) false).calls) ↔
      (false = false ∧ (some 8).isSome = true ∧ 5 < isoweekday 6)) ∧
    (some 8 = none → date_range 1 (some 8) = [1]) :=
  c6_weekend_filter entriesNone createOk 4 8 1 (some 8) false
    (fun d _ => ⟨100 + d, rfl⟩) 6 (by decide)

/-! ## C8: partial failure of a multi-day run -/

/-- When the `log` loop fails, the failing day is a non-weekend under-cap
day of the list whose create errored: its call was issued but it has no
per-day report, all reports and calls are for days up to the failing day,
and no later day is reported or attempted. -/
theorem logGo_failure (entries : Nat → List ℚ) (create : Nat → Except String Nat)
    (hours cap : ℚ) (skipW : Bool) :
    ∀ ds : List Nat, List.Pairwise (· < ·) ds → ∀ e : String,
      (logGo entries create hours cap skipW ds).failure = some e →
      ∃ f ∈ ds,
        create f = Except.error e ∧
        f ∈ (logGo entries create hours cap skipW ds).calls ∧
        (∀ o, (f, o) ∉ (logGo entries create hours cap skipW ds).outcomes) ∧
        (∀ p ∈ (logGo entries create hours cap skipW ds).outcomes, p.1 < f) ∧
        (∀ c ∈ (logGo entries create hours cap skipW ds).calls, c ≤ f) ∧
        (∀ d ∈ ds, f < d →
          (∀ o, (d, o) ∉ (logGo entries create hours cap skipW ds).outcomes) ∧
          d ∉ (logGo entries create hours cap skipW ds).calls)
  | [], _, e, hf => by cases hf
  | d :: ds, hp, e, hf => by
    obtain ⟨hdlt, hp2⟩ := List.pairwise_cons.mp hp
    by_cases hw : wkSkip skipW d = true
    · have heq : logGo entries create hours cap skipW (d :: ds) =
          logGo entries create hours cap skipW ds := by
        simp [logGo, hw]
      rw [heq] at hf ⊢
      obtain ⟨f, hfm, h1, h4, h5, h6, h7, h8⟩ :=
        logGo_failure entries create hours cap skipW ds hp2 e hf
      refine ⟨f, List.mem_cons_of_mem d hfm, h1, h4, h5, h6, h7, ?_⟩
      intro x hx hlt
      rcases List.mem_cons.mp hx with hxd | hxm
      · exact absurd (hxd ▸ hlt) (lt_asymm (hdlt f hfm))
      · exact h8 x hxm hlt
    · rw [Bool.not_eq_true] at hw
      by_cases hc : cap < hours + (entries d).sum
      · have heq : logGo entries create hours cap skipW (d :: ds) =
            ⟨(d, .skippedOverCap) :: (logGo entries create hours cap skipW ds).outcomes,
             (logGo entries create hours cap skipW ds).calls,
             (logGo entries create hours cap skipW ds).failure⟩ := by
          simp [logGo, hw, hc]
        rw [heq] at hf ⊢
        obtain ⟨f, hfm, h1, h4, h5, h6, h7, h8⟩ :=
          logGo_failure entries create hours cap skipW ds hp2 e hf
        have hdf : d < f := hdlt f hfm
        refine ⟨f, List.mem_cons_of_mem d hfm, h1, h4, ?_, ?_, h7, ?_⟩
        · intro o ho
          rcases List.mem_cons.mp ho with hh | ht
          · exact absurd (congrArg Prod.fst hh) (by simpa using ne_of_gt hdf)
          · exact h5 o ht
        · intro p hpm
          rcases List.mem_cons.mp hpm with hh | ht
          · rw [hh]; exact hdf
          · exact h6 p ht
        · intro x hx hlt
          rcases List.mem_cons.mp hx with hxd | hxm
          · exact absurd (hxd ▸ hlt) (lt_asymm hdf)
          · refine ⟨?_, (h8 x hxm hlt).2⟩
            intro o ho
            rcases List.mem_cons.mp ho with hh | ht
            · have : x = d := congrArg Prod.fst hh
              exact absurd this (ne_of_gt (lt_trans hdf hlt))
            · exact (h8 x hxm hlt).1 o ht
      · cases hcr : create d with
        | error e0 =>
          have heq : logGo entries create hours cap skipW (d :: ds) =
              ⟨[], [d], some e0⟩ := by
            simp [logGo, hw, hc, hcr]
          rw [heq] at hf ⊢
          have he : e0 = e := by simpa using hf
          subst he
          refine ⟨d, List.mem_cons_self d ds, hcr, by simp, ?_, ?_, ?_, ?_⟩
          · intro o ho; simp at ho
          · intro p hpm; simp at hpm
          · intro c hcm
            have : c = d := by simpa using hcm
            exact le_of_eq this
          · intro x hx hlt
            refine ⟨fun o ho => by simp at ho, ?_⟩
            intro hxm
            have : x = d := by simpa using hxm
            exact absurd (this ▸ hlt) (lt_irrefl d)
        | ok i =>
          have heq : logGo entries create hours cap skipW (d :: ds) =
              ⟨(d, .created i) :: (logGo entries create hours cap skipW ds).outcomes,
               d :: (logGo entries create hours cap skipW ds).calls,
               (logGo entries create hours cap skipW ds).failure⟩ := by
            simp [logGo, hw, hc, hcr]
          rw [heq] at hf ⊢
          obtain ⟨f, hfm, h1, h4, h5, h6, h7, h8⟩ :=
            logGo_failure entries create hours cap skipW ds hp2 e hf
          have hdf : d < f := hdlt f hfm
          refine ⟨f, List.mem_cons_of_mem d hfm, h1,
            List.mem_cons_of_mem d h4, ?_, ?_, ?_, ?_⟩
          · intro o ho
            rcases List.mem_cons.mp ho with hh | ht
            · exact absurd (congrArg Prod.fst hh) (by simpa using ne_of_gt hdf)
            · exact h5 o ht
          · intro p hpm
            rcases List.mem_cons.mp hpm with hh | ht
            · rw [hh]; exact hdf
            · exact h6 p ht
          · intro c hcm
            rcases List.mem_cons.mp hcm with hh | ht
            · rw [hh]; exact le_of_lt hdf
            · exact h7 c ht
          · intro x hx hlt
            rcases List.mem_cons.mp hx with hxd | hxm
            · exact absurd (hxd ▸ hlt) (lt_asymm hdf)
            · refine ⟨?_, ?_⟩
              · intro o ho
                rcases List.mem_cons.mp ho with hh | ht
                · have : x = d := congrArg Prod.fst hh
                  exact absurd this (ne_of_gt (lt_trans hdf hlt))
                · exact (h8 x hxm hlt).1 o ht
              · intro hcm
                rcases List.mem_cons.mp hcm with hh | ht
                · exact absurd hh (ne_of_gt (lt_trans hdf hlt))
                · exact (h8 x hxm hlt).2 ht

/-- C8 (counterexample): the claim says every unattempted day is reported
as not-attempted.  In the three-day run 1..3 with the create failing on day
2, the full report is the created entry for day 1 plus the bare error
string: day 3 is in the range, was not attempted, and appears in no report
and no call list — there is no not-attempted report at all, and the error
is reported without naming the failing day. -/
theorem c8_noattempt_counterexample :
    logRun entriesNone createFail2 4 8 1 (some 3) true =
      ⟨[(1, DayOutcome.created 101)], [1, 2], some "boom"⟩ ∧
    3 ∈ date_range 1 (some 3) ∧
    3 ∉ ((logRun entriesNone createFail2 4 8 1 (some 3) true).outcomes.map Prod.fst) ∧
    3 ∉ (logRun entriesNone createFail2 4 8 1 (some 3) true).calls := by
  have e1 : date_range 1 (some 3) = [1, 2, 3] := by decide
  have h : logRun entriesNone createFail2 4 8 1 (some 3) true =
      ⟨[(1, DayOutcome.created 101)], [1, 2], some "boom"⟩ := by
    rw [logRun, e1]
    norm_num [logGo, entriesNone, createFail2, wkSkip, skipWeekdaysFlag, isoweekday]
  refine ⟨h, by decide, ?_, ?_⟩
  · rw [h]; decide
  · rw [h]; decide

/-- C8 (amended): when a remote create fails partway through a multi-day
range, the reports made before the failure remain (entries already created
are neither retried nor undone — the failing day itself gets no per-day
report, only the propagated error, which does not name the day), and every
later day of the range is neither attempted nor reported in any way. -/
theorem c8_partial_failure (entries : Nat → List ℚ) (create : Nat → Except String Nat)
    (hours cap : ℚ) (start : Nat) (until_date : Option Nat) (weekdays : Bool) (e : String)
    (hf : (logRun entries create hours cap start until_date weekdays).failure = some e) :
    ∃ f ∈ date_range start until_date,
      create f = Except.error e ∧
      f ∈ (logRun entries create hours cap start until_date weekdays).calls ∧
      (∀ o, (f, o) ∉ (logRun entries create hours cap start until_date weekdays).outcomes) ∧
      (∀ p ∈ (logRun entries create hours cap start until_date weekdays).outcomes,
        p.1 < f) ∧
      (∀ c ∈ (logRun entries create hours cap start until_date weekdays).calls, c ≤ f) ∧
      (∀ d ∈ date_range start until_date, f < d →
        (∀ o, (d, o) ∉ (logRun entries create hours cap start until_date weekdays).outcomes) ∧
        d ∉ (logRun entries create hours cap start until_date weekdays).calls) := by
  have hpair : List.Pairwise (· < ·) (date_range start until_date) := by
    unfold date_range
    exact List.Pairwise.map _ (fun a b h => Nat.add_lt_add_left h start)
      (List.pairwise_lt_range _)
  exact logGo_failure entries create hours cap _ (date_range start until_date) hpair e hf

/-- Witness for C8 at the failing three-day run: day 2 is the failing day. -/
theorem c8_partial_failure_witness :
    ∃ f ∈ date_range 1 (some 3),
      createFail2 f = Except.error "boom" ∧
      f ∈ (logRun entriesNone createFail2 4 8 1 (some 3) true).calls ∧
      (∀ o, (f, o) ∉ (logRun entriesNone createFail2 4 8 1 (some 3) true).outcomes) ∧
      (∀ p ∈ (logRun entriesNone createFail2 4 8 1 (some 3) true).outcomes, p.1 < f) ∧
      (∀ c ∈ (logRun entriesNone createFail2 4 8 1 (some 3) true).calls, c ≤ f) ∧
      (∀ d ∈ date_range 1 (some 3), f < d →
        (∀ o, (d, o) ∉ (logRun entriesNone createFail2 4 8 1 (some 3) true).outcomes) ∧
        d ∉ (logRun entriesNone createFail2 4 8 1 (some 3) true).calls) :=
  c8_partial_failure entriesNone createFail2 4 8 1 (some 3) true "boom" (by
    have e1 : date_range 1 (some 3) = [1, 2, 3] := by decide
    rw [logRun, e1]
    norm_num [logGo, entriesNone, createFail2, wkSkip, skipWeekdaysFlag, isoweekday])

/-! ## C9: empty candidate sets are not failures -/

/-- C9: when completion classifies the slot (here: the project slot of
`log`) but the candidate set is empty, the run exits 0 after printing the
empty join (one blank line) — the `itertools.chain` result is truthy even
when empty, so the `sys.exit(1)` guard is not taken — and this observable
differs from each failure exit: missing index (exit 1, no output),
out-of-range index (exit 1, no output), unknown subcommand (exit 0, no
output), and an unsupported secondary-form option (an uncaught
`NotImplementedError`). -/
theorem c9_empty_candidates (env : CompleteEnv)
    (h1 : env.projectsAll = []) (h2 : env.setOrder [] = []) :
    complete_run env allCmds [] ["log"] false (some 2) = CompleteObs.exitC 0 "\n" ∧
    complete_run env allCmds [] ["log"] false none = CompleteObs.exitC 1 "" ∧
    complete_run env allCmds [] ["log"] false (some 100) = CompleteObs.exitC 1 "" ∧
    complete_run env allCmds [] ["zzz"] false (some 2) = CompleteObs.exitC 0 "" ∧
    completeOptionsBranch [⟨["--flag", "--no-flag"], "", true⟩] =
      CompleteObs.raiseExc "NotImplementedError" ∧
    CompleteObs.exitC 0 "\n" ≠ CompleteObs.exitC 1 "" ∧
    CompleteObs.exitC 0 "\n" ≠ CompleteObs.exitC 0 "" ∧
    CompleteObs.exitC 0 "\n" ≠ CompleteObs.raiseExc "NotImplementedError" := by
  refine ⟨?_, rfl, rfl, rfl, rfl, by decide, by decide, by decide⟩
  have step : complete_run env allCmds [] ["log"] false (some 2) =
      CompleteObs.exitC 0 (joinOut (format_candidates (env.setOrder env.projectsAll))) := rfl
  rw [step, h1, h2]
  rfl

/-- Witness for C9 with the concrete empty environment. -/
theorem c9_empty_candidates_witness :
    complete_run env0 allCmds [] ["log"] false (some 2) = CompleteObs.exitC 0 "\n" ∧
    complete_run env0 allCmds [] ["log"] false none = CompleteObs.exitC 1 "" ∧
    complete_run env0 allCmds [] ["log"] false (some 100) = CompleteObs.exitC 1 "" ∧
    complete_run env0 allCmds [] ["zzz"] false (some 2) = CompleteObs.exitC 0 "" ∧
    completeOptionsBranch [⟨["--flag", "--no-flag"], "", true⟩] =
      CompleteObs.raiseExc "NotImplementedError" ∧
    CompleteObs.exitC 0 "\n" ≠ CompleteObs.exitC 1 "" ∧
    CompleteObs.exitC 0 "\n" ≠ CompleteObs.exitC 0 "" ∧
    CompleteObs.exitC 0 "\n" ≠ CompleteObs.raiseExc "NotImplementedError" :=
  c9_empty_candidates env0 rfl rfl

/-- Witness for C10: token `5` on 2026-10-12 parses to the 5th of October
2026, with either format parser. -/
theorem c10_numeric_date_witness :
    date_convert (fun _ _ => none) dateFormats ⟨2026, 10, 12⟩ "5" =
      date_convert (fun _ _ => some ⟨1999, 1, 1⟩) [] ⟨2026, 10, 12⟩ "5" ∧
    ((1 ≤ digitsToNat "5".data ∧ digitsToNat "5".data ≤ daysInMonth 2026 10) →
      date_convert (fun _ _ => none) dateFormats ⟨2026, 10, 12⟩ "5" =
        DateResult.ok ⟨2026, 10, digitsToNat "5".data⟩) ∧
    (¬ (1 ≤ digitsToNat "5".data ∧ digitsToNat "5".data ≤ daysInMonth 2026 10) →
      date_convert (fun _ _ => none) dateFormats ⟨2026, 10, 12⟩ "5" =
        DateResult.raiseValueError) :=
  c10_numeric_date (fun _ _ => none) (fun _ _ => some ⟨1999, 1, 1⟩) dateFormats []
    ⟨2026, 10, 12⟩ "5" (by decide)

end Redtime
